import Mathlib

/-!
Verification of the MacroHard `data_analyzer.py` statistics engine.

The Python module is embedded shallowly: `DataPoint`/`DataAnalyzer` become
structures, numeric values (Python floats) are modelled as rationals `ℚ`,
Python's stable `sorted` becomes `List.mergeSort`, and operations that can
raise a numeric fault (`ZeroDivisionError`) return `Option`, with `none`
standing for the fault.
-/

namespace MacroHard

/-- `DataPoint`: a `{label, value}` record (data_analyzer.py, lines 12-15). -/
structure DataPoint where
  label : String
  value : ℚ
  deriving DecidableEq

/-- `DataAnalyzer`: holds the dataset and the derived value list
(data_analyzer.py, lines 18-23). -/
structure DataAnalyzer where
  data : List DataPoint
  values : List ℚ
  deriving DecidableEq

/-- `DataAnalyzer.__init__`: stores the dataset and projects out the values
(`self.values = [d.value for d in data]`, line 23). -/
def mkAnalyzer (data : List DataPoint) : DataAnalyzer :=
  { data := data, values := data.map (fun d => d.value) }

/-- `statistics.mean`: sum divided by length (used on nonempty lists in the
source; Python raises on the empty list, which no guarded call reaches). -/
def mean (l : List ℚ) : ℚ :=
  l.sum / (l.length : ℚ)

/-- The square of Python's `statistics.stdev` (sample standard deviation):
sum of squared deviations from the mean divided by `n - 1`.  The square
root itself is irrational in general; every use in the source is either
compared by sign (zero vs nonzero) or by magnitude against a nonnegative
threshold, both expressible through the square. -/
def sampleVariance (l : List ℚ) : ℚ :=
  ((l.map (fun v => (v - mean l) ^ 2)).sum) / ((l.length : ℚ) - 1)

/-- Python's builtin `min` over a nonempty list (0 on the empty list, which
no guarded call reaches). -/
def listMin : List ℚ → ℚ
  | [] => 0
  | x :: xs => xs.foldl min x

/-- Python's builtin `max` over a nonempty list (0 on the empty list, which
no guarded call reaches). -/
def listMax : List ℚ → ℚ
  | [] => 0
  | x :: xs => xs.foldl max x

/-- `statistics.median`: middle element of the sorted list, or the average
of the two middle elements when the length is even. -/
def median (l : List ℚ) : ℚ :=
  let s := l.mergeSort (fun a b => decide (a ≤ b))
  let n := s.length
  if n % 2 = 1 then s.getD (n / 2) 0
  else (s.getD (n / 2 - 1) 0 + s.getD (n / 2) 0) / 2

/-- The record returned by `get_statistics` (data_analyzer.py, lines 30-39).
`stdevSq` is the square of the source's `stdev` entry (see `sampleVariance`). -/
structure Stats where
  count : ℕ
  sum : ℚ
  mean : ℚ
  median : ℚ
  min : ℚ
  max : ℚ
  range : ℚ
  stdevSq : ℚ
  deriving DecidableEq

/-- `DataAnalyzer.get_statistics` (lines 25-39): empty mapping (here `none`)
on an empty value list, otherwise the eight statistics; the stdev entry is
`stdev(values) if len(values) > 1 else 0`. -/
def getStatistics (a : DataAnalyzer) : Option Stats :=
  if a.values = [] then none
  else some
    { count := a.values.length
      sum := a.values.sum
      mean := mean a.values
      median := median a.values
      min := listMin a.values
      max := listMax a.values
      range := listMax a.values - listMin a.values
      stdevSq := if 1 < a.values.length then sampleVariance a.values else 0 }

/-- `DataAnalyzer.find_outliers` (lines 41-55): `[]` when fewer than two
values; otherwise keeps the points whose z-score `|value - mean| / stdev`
exceeds `threshold`.  The source divides by `stdev` unguarded, so when the
sample deviation is zero Python raises `ZeroDivisionError`, modelled as
`none`.  For a nonnegative threshold (the only kind the module uses; the
default is `2.0`) the comparison `|v - m| / s > t` is equivalent to
`(v - m)^2 / s^2 > t^2`, which stays inside `ℚ`. -/
def findOutliers (threshold : ℚ) (a : DataAnalyzer) : Option (List DataPoint) :=
  if a.values.length < 2 then some []
  else
    let m := mean a.values
    let varVal := sampleVariance a.values
    if varVal = 0 then none
    else some (a.data.filter (fun p => decide (threshold ^ 2 < (p.value - m) ^ 2 / varVal)))

/-- `DataAnalyzer.sort_by_value` (lines 57-59): Python's `sorted` with
`key=lambda x: x.value` and `reverse=descending`.  `sorted` is a stable
sort, and `reverse=True` preserves the original order of equal keys, so
both flag values are stable merge sorts under the corresponding total
preorder on the value field. -/
def sortByValue (descending : Bool) (a : DataAnalyzer) : List DataPoint :=
  a.data.mergeSort (fun p q =>
    if descending then decide (q.value ≤ p.value) else decide (p.value ≤ q.value))

/-- `DataAnalyzer.filter_range` (lines 61-63): keeps the points with
`min_val <= value <= max_val`, in order. -/
def filterRange (minVal maxVal : ℚ) (a : DataAnalyzer) : List DataPoint :=
  a.data.filter (fun d => decide (minVal ≤ d.value) && decide (d.value ≤ maxVal))

/-- `DataAnalyzer.percentage_change` (lines 65-75): `(0.0, "N/A")` when
fewer than two values; otherwise
`change = ((last - first) / first) * 100 if first != 0 else 0` and
`direction = "↑ Up" if change > 0 else "↓ Down"`. -/
def percentageChange (a : DataAnalyzer) : ℚ × String :=
  if a.values.length < 2 then (0, "N/A")
  else
    let first := a.values.headD 0
    let last := a.values.getLastD 0
    let change := if first ≠ 0 then ((last - first) / first) * 100 else 0
    let direction := if 0 < change then "↑ Up" else "↓ Down"
    (change, direction)

/-- `DataAnalyzer.moving_average` (lines 77-85): the raw value list when it
is shorter than the window, otherwise
`[mean(values[i:i+window]) for i in range(len(values) - window + 1)]`.
Python's slice `values[i:i+window]` is `(values.drop i).take window`. -/
def movingAverage (window : ℕ) (a : DataAnalyzer) : List ℚ :=
  if a.values.length < window then a.values
  else (List.range (a.values.length - window + 1)).map
    (fun i => mean ((a.values.drop i).take window))

/-- `DataProcessor.from_list` (lines 121-125): zips the two lists — Python's
`zip` silently truncates to the shorter input — and builds the analyzer. -/
def fromList (labels : List String) (values : List ℚ) : DataAnalyzer :=
  mkAnalyzer ((labels.zip values).map (fun p => { label := p.1, value := p.2 }))

/-
State-threaded renderings of the six engine methods.  A Python method
receives `self` and may assign to its attributes; the explicit-state
embedding therefore returns the analyzer alongside the result.  None of
the six method bodies (lines 25-85) assigns to any attribute of `self`,
so each returns the analyzer it received.
-/

/-- `get_statistics` with explicit state passing. -/
def getStatisticsS (a : DataAnalyzer) : Option Stats × DataAnalyzer :=
  (getStatistics a, a)

/-- `find_outliers` with explicit state passing. -/
def findOutliersS (threshold : ℚ) (a : DataAnalyzer) :
    Option (List DataPoint) × DataAnalyzer :=
  (findOutliers threshold a, a)

/-- `sort_by_value` with explicit state passing. -/
def sortByValueS (descending : Bool) (a : DataAnalyzer) :
    List DataPoint × DataAnalyzer :=
  (sortByValue descending a, a)

/-- `filter_range` with explicit state passing. -/
def filterRangeS (minVal maxVal : ℚ) (a : DataAnalyzer) :
    List DataPoint × DataAnalyzer :=
  (filterRange minVal maxVal a, a)

/-- `percentage_change` with explicit state passing. -/
def percentageChangeS (a : DataAnalyzer) : (ℚ × String) × DataAnalyzer :=
  (percentageChange a, a)

/-- `moving_average` with explicit state passing. -/
def movingAverageS (window : ℕ) (a : DataAnalyzer) :
    List ℚ × DataAnalyzer :=
  (movingAverage window a, a)

/-! ## Helper lemmas -/

/-- The mean of a nonempty constant list is that constant. -/
theorem mean_const (l : List ℚ) (c : ℚ) (hne : l ≠ []) (h : ∀ v ∈ l, v = c) :
    mean l = c := by
  have h0 : l.length ≠ 0 := by simpa [List.length_eq_zero] using hne
  have hc : (l.length : ℚ) ≠ 0 := Nat.cast_ne_zero.mpr h0
  rw [mean, List.sum_eq_card_nsmul l c h, nsmul_eq_mul]
  exact mul_div_cancel_left₀ c hc

/-! ## Claims -/

/-- C7: on a dataset with fewer than two points, `find_outliers` takes the
early-return branch and yields the empty outlier list, no numeric fault. -/
theorem claim_C7 (t : ℚ) (a : DataAnalyzer) (h : a.values.length < 2) :
    findOutliers t a = some [] := by
  simp [findOutliers, h]

/-- Witness for C7 at the spec's two examples: the empty dataset and the
singleton `[{A, 5}]`. -/
theorem claim_C7_witness :
    findOutliers 2 (mkAnalyzer []) = some [] ∧
    findOutliers 2 (mkAnalyzer [⟨"A", 5⟩]) = some [] :=
  ⟨claim_C7 2 (mkAnalyzer []) (by norm_num [mkAnalyzer]),
   claim_C7 2 (mkAnalyzer [⟨"A", 5⟩]) (by norm_num [mkAnalyzer])⟩

/-- C1: when all values are identical and there are at least two of them,
the sample deviation is zero and the unguarded division in `find_outliers`
raises `ZeroDivisionError` (modelled as `none`) instead of returning the
empty list the spec requires. -/
theorem claim_C1 (t c : ℚ) (a : DataAnalyzer) (h2 : 2 ≤ a.values.length)
    (hconst : ∀ v ∈ a.values, v = c) : findOutliers t a = none := by
  have hne : a.values ≠ [] := by
    intro h
    rw [h] at h2
    simp at h2
  have hmean : mean a.values = c := mean_const _ c hne hconst
  have hvar : sampleVariance a.values = 0 := by
    rw [sampleVariance]
    have hz : (a.values.map (fun v => (v - mean a.values) ^ 2)).sum = 0 := by
      apply List.sum_eq_zero
      intro x hx
      simp only [List.mem_map] at hx
      obtain ⟨v, hv, rfl⟩ := hx
      rw [hconst v hv, hmean]
      ring
    rw [hz, zero_div]
  rw [findOutliers, if_neg (by omega)]
  simp [hvar]

/-- Witness for C1 at the spec's failing input `[{A,10},{B,10},{C,10}]`:
the call hits the division by zero. -/
theorem claim_C1_witness :
    findOutliers 2 (mkAnalyzer [⟨"A", 10⟩, ⟨"B", 10⟩, ⟨"C", 10⟩]) = none :=
  claim_C1 2 10 (mkAnalyzer [⟨"A", 10⟩, ⟨"B", 10⟩, ⟨"C", 10⟩])
    (by norm_num [mkAnalyzer]) (by simp [mkAnalyzer])

/-- C8: the derived value list stored by the constructor is the positional
projection of the dataset: same length, and the i-th value is the value
field of the i-th data point. -/
theorem claim_C8 (d : List DataPoint) :
    (mkAnalyzer d).values.length = d.length ∧
    ∀ i, i < d.length →
      (mkAnalyzer d).values.getD i 0 = (d.getD i ⟨"", 0⟩).value := by
  refine ⟨by simp [mkAnalyzer], ?_⟩
  intro i hi
  simp [mkAnalyzer, List.getD_eq_getElem?_getD, List.getElem?_map,
    List.getElem?_eq_getElem hi]

/-- Witness for C8 on the one-point dataset `[{A, 1}]` at index 0. -/
theorem claim_C8_witness :
    (mkAnalyzer [⟨"A", 1⟩]).values.length = 1 ∧
    (mkAnalyzer [⟨"A", 1⟩]).values.getD 0 0 = 1 := by
  have h := claim_C8 [⟨"A", 1⟩]
  refine ⟨by simpa using h.1, ?_⟩
  have h2 := h.2 0 (by norm_num)
  simpa using h2

/-- C9: every engine operation is a pure read: in the state-threaded
embedding each of the six methods returns the analyzer it received, so the
`data` and `values` fields after any call equal their state before it. -/
theorem claim_C9 (a : DataAnalyzer) (t mn mx : ℚ) (w : ℕ) (desc : Bool) :
    (getStatisticsS a).2 = a ∧ (findOutliersS t a).2 = a ∧
    (sortByValueS desc a).2 = a ∧ (filterRangeS mn mx a).2 = a ∧
    (percentageChangeS a).2 = a ∧ (movingAverageS w a).2 = a :=
  ⟨rfl, rfl, rfl, rfl, rfl, rfl⟩

/-- C10: the moving average with window 1 is the identity on the value
list, for every dataset including the empty one. -/
theorem claim_C10 (a : DataAnalyzer) : movingAverage 1 a = a.values := by
  rw [movingAverage]
  by_cases h : a.values.length < 1
  · simp [h]
  · rw [if_neg h]
    have hlen : a.values.length - 1 + 1 = a.values.length := by omega
    apply List.ext_getElem
    · simp [hlen]
    · intro i h1 h2
      simp only [List.getElem_map, List.getElem_range]
      rw [List.drop_eq_getElem_cons h2, List.take_succ_cons, List.take_zero, mean]
      simp

/-- The direction string is "↑ Up" exactly for positive change, and
"↓ Down" otherwise. -/
theorem direction_iff (q : ℚ) :
    ((if 0 < q then "↑ Up" else "↓ Down") = "↑ Up" ↔ 0 < q) ∧
    (¬ 0 < q → (if 0 < q then "↑ Up" else "↓ Down") = "↓ Down") := by
  by_cases hq : 0 < q <;> simp [hq]

/-- C2: `percentage_change` returns `(0, "N/A")` on fewer than two values;
otherwise the percent is `(last - first) / first * 100` except that it is 0
when the first value is 0, and the direction is "↑ Up" exactly when the
percent is positive and "↓ Down" otherwise. -/
theorem claim_C2 (a : DataAnalyzer) :
    (a.values.length < 2 → percentageChange a = (0, "N/A")) ∧
    (2 ≤ a.values.length →
      (percentageChange a).1 =
        (if a.values.headD 0 = 0 then 0
         else ((a.values.getLastD 0 - a.values.headD 0) / a.values.headD 0) * 100) ∧
      ((percentageChange a).2 = "↑ Up" ↔ 0 < (percentageChange a).1) ∧
      (¬ 0 < (percentageChange a).1 → (percentageChange a).2 = "↓ Down")) := by
  constructor
  · intro h
    simp [percentageChange, h]
  · intro h
    have hn : ¬ a.values.length < 2 := by omega
    have hpc : percentageChange a =
        (if a.values.headD 0 ≠ 0 then
           ((a.values.getLastD 0 - a.values.headD 0) / a.values.headD 0) * 100
         else 0,
         if 0 < (if a.values.headD 0 ≠ 0 then
             ((a.values.getLastD 0 - a.values.headD 0) / a.values.headD 0) * 100
           else 0) then "↑ Up" else "↓ Down") := by
      rw [percentageChange, if_neg hn]
    rw [hpc]
    refine ⟨?_, (direction_iff _).1, (direction_iff _).2⟩
    by_cases hf : a.values.headD 0 = 0 <;> simp [hf]

/-- Witness for C2: a one-point dataset takes the "N/A" branch, and on
`[{A,1},{B,3}]` the direction is "↑ Up" exactly when the percent is
positive. -/
theorem claim_C2_witness :
    percentageChange (mkAnalyzer [⟨"A", 1⟩]) = (0, "N/A") ∧
    ((percentageChange (mkAnalyzer [⟨"A", 1⟩, ⟨"B", 3⟩])).2 = "↑ Up" ↔
      0 < (percentageChange (mkAnalyzer [⟨"A", 1⟩, ⟨"B", 3⟩])).1) :=
  ⟨(claim_C2 (mkAnalyzer [⟨"A", 1⟩])).1 (by norm_num [mkAnalyzer]),
   (((claim_C2 (mkAnalyzer [⟨"A", 1⟩, ⟨"B", 3⟩])).2
      (by norm_num [mkAnalyzer])).2).1⟩

/-- C4: with `window ≤ count` (and a meaningful window, at least 1),
`moving_average` returns exactly `count - window + 1` values, the i-th
being the mean of the `window` consecutive values starting at position i;
with `count < window` it returns the raw value list unchanged. -/
theorem claim_C4 (w : ℕ) (a : DataAnalyzer) :
    (1 ≤ w → w ≤ a.values.length →
      (movingAverage w a).length = a.values.length - w + 1 ∧
      ∀ i, i < a.values.length - w + 1 →
        ((a.values.drop i).take w).length = w ∧
        (movingAverage w a).getD i 0 = mean ((a.values.drop i).take w)) ∧
    (a.values.length < w → movingAverage w a = a.values) := by
  constructor
  · intro hw hwl
    have hn : ¬ a.values.length < w := by omega
    rw [movingAverage, if_neg hn]
    refine ⟨by simp, ?_⟩
    intro i hi
    constructor
    · simp only [List.length_take, List.length_drop]
      omega
    · simp [List.getD_eq_getElem?_getD, List.getElem?_map,
        List.getElem?_range hi]
  · intro h
    simp [movingAverage, h]

/-- Witness for C4 on `[{A,1},{B,2},{C,3},{D,4}]` with window 3: two
averages, slice length 3, first average equal to the mean of the first
window. -/
theorem claim_C4_witness :
    (movingAverage 3 (mkAnalyzer [⟨"A", 1⟩, ⟨"B", 2⟩, ⟨"C", 3⟩, ⟨"D", 4⟩])).length = 2 ∧
    (movingAverage 3 (mkAnalyzer [⟨"A", 1⟩, ⟨"B", 2⟩, ⟨"C", 3⟩, ⟨"D", 4⟩])).getD 0 0 = 2 := by
  have h := (claim_C4 3 (mkAnalyzer [⟨"A", 1⟩, ⟨"B", 2⟩, ⟨"C", 3⟩, ⟨"D", 4⟩])).1
    (by norm_num) (by norm_num [mkAnalyzer])
  refine ⟨by simpa [mkAnalyzer] using h.1, ?_⟩
  have h2 := (h.2 0 (by norm_num [mkAnalyzer])).2
  rw [h2]
  norm_num [mkAnalyzer, mean]

/-- A `min`-fold is bounded by its initial accumulator. -/
theorem foldl_min_le_init (l : List ℚ) : ∀ x : ℚ, l.foldl min x ≤ x := by
  induction l with
  | nil => intro x; simp
  | cons y ys ih =>
    intro x
    simp only [List.foldl_cons]
    exact le_trans (ih (min x y)) (min_le_left x y)

/-- A `min`-fold is bounded by every list element. -/
theorem foldl_min_le_mem (l : List ℚ) :
    ∀ (x a : ℚ), a ∈ l → l.foldl min x ≤ a := by
  induction l with
  | nil => intro x a ha; simp at ha
  | cons y ys ih =>
    intro x a ha
    simp only [List.foldl_cons]
    rcases List.mem_cons.mp ha with rfl | h
    · exact le_trans (foldl_min_le_init ys (min x a)) (min_le_right x a)
    · exact ih (min x y) a h

/-- `listMin` bounds every element from below. -/
theorem listMin_le (l : List ℚ) (a : ℚ) (ha : a ∈ l) : listMin l ≤ a := by
  cases l with
  | nil => simp at ha
  | cons x xs =>
    rw [listMin]
    rcases List.mem_cons.mp ha with rfl | h
    · exact foldl_min_le_init xs a
    · exact foldl_min_le_mem xs x a h

/-- A `max`-fold dominates its initial accumulator. -/
theorem init_le_foldl_max (l : List ℚ) : ∀ x : ℚ, x ≤ l.foldl max x := by
  induction l with
  | nil => intro x; simp
  | cons y ys ih =>
    intro x
    simp only [List.foldl_cons]
    exact le_trans (le_max_left x y) (ih (max x y))

/-- A `max`-fold dominates every list element. -/
theorem mem_le_foldl_max (l : List ℚ) :
    ∀ (x a : ℚ), a ∈ l → a ≤ l.foldl max x := by
  induction l with
  | nil => intro x a ha; simp at ha
  | cons y ys ih =>
    intro x a ha
    simp only [List.foldl_cons]
    rcases List.mem_cons.mp ha with rfl | h
    · exact le_trans (le_max_right x a) (init_le_foldl_max ys (max x a))
    · exact ih (max x y) a h

/-- `listMax` bounds every element from above. -/
theorem le_listMax (l : List ℚ) (a : ℚ) (ha : a ∈ l) : a ≤ listMax l := by
  cases l with
  | nil => simp at ha
  | cons x xs =>
    rw [listMax]
    rcases List.mem_cons.mp ha with rfl | h
    · exact init_le_foldl_max xs a
    · exact mem_le_foldl_max xs x a h

/-- A uniform lower bound on the elements bounds the sum from below. -/
theorem mul_card_le_sum (l : List ℚ) (c : ℚ) (h : ∀ a ∈ l, c ≤ a) :
    c * l.length ≤ l.sum := by
  induction l with
  | nil => simp
  | cons x xs ih =>
    have hx := h x (List.mem_cons_self x xs)
    have hxs := ih (fun a ha => h a (List.mem_cons_of_mem x ha))
    simp only [List.sum_cons, List.length_cons]
    have hexp : c * ((xs.length : ℚ) + 1) = c * (xs.length : ℚ) + c := by ring
    push_cast
    rw [hexp]
    linarith

/-- A uniform upper bound on the elements bounds the sum from above. -/
theorem sum_le_mul_card (l : List ℚ) (c : ℚ) (h : ∀ a ∈ l, a ≤ c) :
    l.sum ≤ c * l.length := by
  induction l with
  | nil => simp
  | cons x xs ih =>
    have hx := h x (List.mem_cons_self x xs)
    have hxs := ih (fun a ha => h a (List.mem_cons_of_mem x ha))
    simp only [List.sum_cons, List.length_cons]
    have hexp : c * ((xs.length : ℚ) + 1) = c * (xs.length : ℚ) + c := by ring
    push_cast
    rw [hexp]
    linarith

/-- The minimum of a nonempty list bounds its mean from below. -/
theorem listMin_le_mean (l : List ℚ) (hne : l ≠ []) : listMin l ≤ mean l := by
  have h0 : l.length ≠ 0 := by simpa [List.length_eq_zero] using hne
  have hlen : 0 < (l.length : ℚ) := by
    exact_mod_cast Nat.pos_of_ne_zero h0
  rw [mean, le_div_iff₀ hlen]
  exact mul_card_le_sum l (listMin l) (fun a ha => listMin_le l a ha)

/-- The mean of a nonempty list is bounded by its maximum. -/
theorem mean_le_listMax (l : List ℚ) (hne : l ≠ []) : mean l ≤ listMax l := by
  have h0 : l.length ≠ 0 := by simpa [List.length_eq_zero] using hne
  have hlen : 0 < (l.length : ℚ) := by
    exact_mod_cast Nat.pos_of_ne_zero h0
  rw [mean, div_le_iff₀ hlen]
  exact sum_le_mul_card l (listMax l) (fun a ha => le_listMax l a ha)

/-- C5: for every nonempty dataset, the statistics record satisfies
`min ≤ mean ≤ max`. -/
theorem claim_C5 (a : DataAnalyzer) (s : Stats) (h : getStatistics a = some s) :
    s.min ≤ s.mean ∧ s.mean ≤ s.max := by
  rw [getStatistics] at h
  by_cases hne : a.values = []
  · simp [hne] at h
  · rw [if_neg hne] at h
    have hs := Option.some.inj h
    subst hs
    exact ⟨listMin_le_mean a.values hne, mean_le_listMax a.values hne⟩

/-- Witness for C5 on `[{A,1},{B,3}]`, whose statistics record is
`⟨2, 4, 2, 2, 1, 3, 2, 2⟩`. -/
theorem claim_C5_witness :
    (Stats.mk 2 4 2 2 1 3 2 2).min ≤ (Stats.mk 2 4 2 2 1 3 2 2).mean ∧
    (Stats.mk 2 4 2 2 1 3 2 2).mean ≤ (Stats.mk 2 4 2 2 1 3 2 2).max :=
  claim_C5 (mkAnalyzer [⟨"A", 1⟩, ⟨"B", 3⟩]) (Stats.mk 2 4 2 2 1 3 2 2)
    (by
      rw [getStatistics]
      norm_num [mkAnalyzer, mean, sampleVariance, median, listMin, listMax,
        Stats.mk.injEq, List.mergeSort]
      intro hcon
      exact absurd hcon (by simp))

/-- Stability of a merge sort under a transitive total comparison: filtering
by a predicate whose holders are pairwise tied leaves the original
subsequence intact. -/
theorem mergeSort_filter_eq (le : DataPoint → DataPoint → Bool)
    (htrans : ∀ a b c : DataPoint, le a b → le b c → le a c)
    (htotal : ∀ a b : DataPoint, le a b || le b a)
    (l : List DataPoint) (p : DataPoint → Bool)
    (hp : ∀ x y : DataPoint, p x → p y → le x y) :
    (l.mergeSort le).filter p = l.filter p := by
  have hsub : List.Sublist (l.filter p) (l.mergeSort le) := by
    apply List.sublist_mergeSort htrans htotal
    · apply List.pairwise_of_forall_mem_list
      intro x hx y hy
      exact hp x y (List.of_mem_filter hx) (List.of_mem_filter hy)
    · exact List.filter_sublist l
  have h1 : List.Sublist (l.filter p) ((l.mergeSort le).filter p) := by
    have h0 := hsub.filter p
    simpa [List.filter_filter] using h0
  have h2 : ((l.mergeSort le).filter p).Perm (l.filter p) :=
    (List.mergeSort_perm l le).filter p
  exact (h1.eq_of_length h2.length_eq.symm).symm

/-- C6: for either flag value, `sort_by_value` permutes the dataset, orders
it by value (descending when the flag is set), and is stable: the points
carrying any fixed value appear in their original relative order. -/
theorem claim_C6 (desc : Bool) (a : DataAnalyzer) :
    (sortByValue desc a).Perm a.data ∧
    (sortByValue desc a).Pairwise
      (fun p q => if desc then q.value ≤ p.value else p.value ≤ q.value) ∧
    ∀ v : ℚ, (sortByValue desc a).filter (fun p => decide (p.value = v)) =
      a.data.filter (fun p => decide (p.value = v)) := by
  cases desc with
  | false =>
    refine ⟨List.mergeSort_perm a.data _, ?_, ?_⟩
    · have hs := @List.sorted_mergeSort DataPoint
        (fun p q : DataPoint => decide (p.value ≤ q.value))
        (fun x y z hxy hyz => by
          simp only [decide_eq_true_eq] at *
          exact le_trans hxy hyz)
        (fun x y => by
          simp only [Bool.or_eq_true, decide_eq_true_eq]
          exact le_total x.value y.value)
        a.data
      rw [sortByValue]
      simp only [if_false, Bool.false_eq_true]
      exact hs.imp (fun h => by simpa using h)
    · intro v
      rw [sortByValue]
      simp only [Bool.false_eq_true, if_false]
      apply mergeSort_filter_eq
      · intro x y z hxy hyz
        simp only [decide_eq_true_eq] at *
        exact le_trans hxy hyz
      · intro x y
        simp only [Bool.or_eq_true, decide_eq_true_eq]
        exact le_total x.value y.value
      · intro x y hx hy
        simp only [decide_eq_true_eq] at *
        rw [hx, hy]
  | true =>
    refine ⟨List.mergeSort_perm a.data _, ?_, ?_⟩
    · have hs := @List.sorted_mergeSort DataPoint
        (fun p q : DataPoint => decide (q.value ≤ p.value))
        (fun x y z hxy hyz => by
          simp only [decide_eq_true_eq] at *
          exact le_trans hyz hxy)
        (fun x y => by
          simp only [Bool.or_eq_true, decide_eq_true_eq]
          exact le_total y.value x.value)
        a.data
      rw [sortByValue]
      simp only [if_true]
      exact hs.imp (fun h => by simpa using h)
    · intro v
      rw [sortByValue]
      simp only [if_true]
      apply mergeSort_filter_eq
      · intro x y z hxy hyz
        simp only [decide_eq_true_eq] at *
        exact le_trans hyz hxy
      · intro x y
        simp only [Bool.or_eq_true, decide_eq_true_eq]
        exact le_total y.value x.value
      · intro x y hx hy
        simp only [decide_eq_true_eq] at *
        rw [hx, hy]

/-- Counterexample for C3: `from_list` on the unequal-length inputs
`["A", "B"]` and `[1]` produces a one-point dataset — Python's `zip`
truncates silently — rather than failing. -/
theorem claim_C3_counterexample :
    (["A", "B"].length ≠ [(1 : ℚ)].length) ∧
    (fromList ["A", "B"] [(1 : ℚ)]).data = [⟨"A", 1⟩] := by
  constructor
  · norm_num
  · norm_num [fromList, mkAnalyzer]

/-- C3 (amended): `from_list` does not enforce equal lengths; it pairs
labels with values positionally and truncates to the shorter input, so the
dataset has length `min` of the two lengths and its i-th point is the i-th
label paired with the i-th value. -/
theorem claim_C3_amended (ls : List String) (vs : List ℚ) :
    (fromList ls vs).data.length = min ls.length vs.length ∧
    ∀ i, i < min ls.length vs.length →
      (fromList ls vs).data.getD i ⟨"", 0⟩ = ⟨ls.getD i "", vs.getD i 0⟩ := by
  refine ⟨by simp [fromList, mkAnalyzer], ?_⟩
  intro i hi
  have hl : i < ls.length := lt_of_lt_of_le hi (min_le_left _ _)
  have hv : i < vs.length := lt_of_lt_of_le hi (min_le_right _ _)
  have hz : i < (ls.zip vs).length := by
    simp only [List.length_zip]
    omega
  simp [fromList, mkAnalyzer, List.getD_eq_getElem?_getD, List.getElem?_map,
    List.getElem?_eq_getElem, hz, hl, hv, List.getElem_zip]

/-- Witness for the amended C3 at the counterexample's unequal-length
input. -/
theorem claim_C3_amended_witness :
    (fromList ["A", "B"] [(1 : ℚ)]).data.length = 1 ∧
    (fromList ["A", "B"] [(1 : ℚ)]).data.getD 0 ⟨"", 0⟩ = ⟨"A", 1⟩ := by
  have h := claim_C3_amended ["A", "B"] [(1 : ℚ)]
  refine ⟨by simpa using h.1, ?_⟩
  have h2 := h.2 0 (by norm_num)
  simpa using h2

end MacroHard
